import Mathlib

/-!
Verification development for the WMTS tile-addressing core of the
repository (ol/source/WMTS.js in the excerpt).  JavaScript strings are
embedded as lists of characters, JavaScript objects with string keys as
association lists in insertion order, and statements whose evaluation can
throw (property access on a missing object) are embedded in an Except
monad.  External collaborators (the projection service, the tile grid)
are passed in as function-valued parameters.
-/

set_option maxRecDepth 8000

abbrev Str := List Char

/-- Characters matched by the JavaScript character class of word
characters (letters, digits, underscore). -/
def isWordChar (c : Char) : Bool := c.isAlphanum || c == '_'

/-- Lower-casing a string, as String.prototype.toLowerCase does for the
ASCII identifiers appearing in templates. -/
def lowerStr (s : Str) : Str := s.map Char.toLower

/-- Decimal digit character (code 48 + d). -/
def digitCh (d : Nat) : Char := Char.ofNat (48 + d)

/-- Digit-producing loop of the decimal printer, structurally recursive
on a fuel bound that dominates the digit count. -/
def natToStrGo : Nat → Nat → Str
  | 0, _ => []
  | fuel + 1, n => if n < 10 then [digitCh n] else natToStrGo fuel (n / 10) ++ [digitCh (n % 10)]

/-- Decimal representation of a natural number, as JavaScript prints
one. -/
def natToStr (n : Nat) : Str := natToStrGo (n + 1) n

/-- Decimal representation of an integer, as JavaScript coerces a number
into a string. -/
def intToStr (i : Int) : Str :=
  if i < 0 then '-' :: natToStr i.natAbs else natToStr i.natAbs

/-- Lookup of a string key in an object embedded as an association list
(first binding wins, as property tables hold each key once). -/
def lookupStr (k : Str) : List (Str × α) → Option α
  | [] => none
  | kv :: t => if kv.1 == k then some kv.2 else lookupStr k t

/-- Modelled from the spec: setting one key of an object (the single-entry
step of the merge described for the dimension manager; from ol/obj.js,
which is outside the excerpt): an existing key keeps its position and
receives the new value, a new key is appended. -/
def objSet (base : List (Str × α)) (kv : Str × α) : List (Str × α) :=
  if base.any (fun p => p.1 == kv.1) then
    base.map (fun p => if p.1 == kv.1 then (p.1, kv.2) else p)
  else
    base ++ [kv]

/-- Modelled from the spec: `assign` (ol/obj.js, outside the excerpt)
merges the patch into the base object, overwriting existing keys and
appending new ones, in patch order. -/
def assignList (base patch : List (Str × α)) : List (Str × α) :=
  patch.foldl objSet base

/-- Splitting a string at every occurrence of a separator character. -/
def splitSep (c : Char) : Str → List Str
  | [] => [[]]
  | a :: as =>
    if a = c then [] :: splitSep c as
    else
      match splitSep c as with
      | [] => [[a]]
      | h :: t => (a :: h) :: t

/-- Joining strings with a separator character. -/
def joinSep (c : Char) : List Str → Str
  | [] => []
  | [x] => x
  | x :: y :: t => x ++ c :: joinSep c (y :: t)

/-- Query part of a URL: everything after the first question mark (empty
when there is none). -/
def queryOf : Str → Str
  | [] => []
  | c :: cs => if c = '?' then cs else queryOf cs

/-- Ampersand-separated pieces of a URL's query string. -/
def queryPieces (u : Str) : List Str := splitSep '&' (queryOf u)

/-- Name of one query piece: the part before the first equals sign. -/
def pieceKey : Str → Str
  | [] => []
  | c :: cs => if c = '=' then [] else c :: pieceKey cs

/-- Value of one query piece: the part after the first equals sign. -/
def pieceVal : Str → Str
  | [] => []
  | c :: cs => if c = '=' then cs else pieceVal cs

/-- Names of the query parameters of a URL. -/
def queryKeys (u : Str) : List Str := (queryPieces u).map pieceKey

/-- Name/value pairs of the query parameters of a URL. -/
def queryPairs (u : Str) : List (Str × Str) :=
  (queryPieces u).map (fun p => (pieceKey p, pieceVal p))

/-- Modelled from the spec: `appendParams` (ol/uri.js, outside the
excerpt) appends each name=value pair to the query string of the given
URL, ampersand-separated; a name already present among the query
parameters of the URL is not appended again, and newly appended names
come after the existing ones.  Percent escaping of values is outside the
model. -/
def appendParams (u : Str) (ps : List (Str × Str)) : Str :=
  let fresh := ps.filter (fun kv => !((queryKeys u).contains kv.1))
  let qs := joinSep '&' (fresh.map (fun kv => kv.1 ++ '=' :: kv.2))
  (if '?' ∈ u then u ++ ['&'] else u ++ ['?']) ++ qs

/-- One pass of the global regex replace over bracketed word placeholders
used by createFromWMTSTemplate_: at each opening brace followed by a
nonempty run of word characters and a closing brace the replacer is
consulted, with `none` keeping the whole match verbatim; replacement text
is not rescanned. -/
def replaceTpl (f : Str → Option Str) : Str → Str
  | [] => []
  | a :: as =>
    if a = '{' then
      match _h : as.dropWhile isWordChar with
      | '}' :: tail =>
        if (as.takeWhile isWordChar).isEmpty then '{' :: replaceTpl f as
        else ((f (as.takeWhile isWordChar)).getD
              ('{' :: (as.takeWhile isWordChar ++ ['}']))) ++ replaceTpl f tail
      | _ => '{' :: replaceTpl f as
    else a :: replaceTpl f as
termination_by s => s.length
decreasing_by
  all_goals simp only [List.length_cons]
  all_goals try omega
  all_goals
    have hle : ∀ (l : List Char), (l.dropWhile isWordChar).length ≤ l.length := by
      intro l
      induction l with
      | nil => simp [List.dropWhile]
      | cons x xs ih =>
        simp only [List.dropWhile, List.length_cons]
        split
        · omega
        · simp
  all_goals
    have h2 := hle as
  all_goals rw [_h] at h2
  all_goals simp only [List.length_cons] at h2
  all_goals omega

def KVPE : Str := ("KVP").data

def RESTE : Str := ("REST").data

def tileMatrixKey : Str := ("TileMatrix").data

def tileColKey : Str := ("TileCol").data

def tileRowKey : Str := ("TileRow").data

def undefinedStr : Str := ("undefined").data

/-- Tile coordinate (zoom level, column, row) in the client's internal
scheme. -/
abbrev TileCoord := Int × Int × Int

/-- Projections are identified by the opaque handle the external
projection service hands out; a string identity suffices for the
model. -/
abbrev ProjT := Str

/-- Compile-time pass of the REST branch of createFromWMTSTemplate_: a
placeholder whose lower-cased name is a key of the static context is
substituted, any other placeholder is kept verbatim. -/
def restCompilePass (context : List (Str × Str)) (template : Str) : Str :=
  replaceTpl (fun p => lookupStr (lowerStr p) context) template

/-- Call-time pass of the REST branch of createFromWMTSTemplate_: every
placeholder is substituted by the dynamic-context value of its name, a
missing name yielding the string coercion of the JavaScript undefined
value. -/
def restRuntimePass (localContext : List (Str × Str)) (u : Str) : Str :=
  replaceTpl (fun p => some ((lookupStr p localContext).getD undefinedStr)) u

/-- Compile-time template preparation of createFromWMTSTemplate_: a KVP
template gets the static context appended as query parameters, a REST
template goes through the compile-time placeholder pass. -/
def prepareTemplate (requestEncoding : Str) (context : List (Str × Str)) (template : Str) : Str :=
  if requestEncoding == KVPE then appendParams template context
  else restCompilePass context template

/-- Per-call dynamic context of createFromWMTSTemplate_: matrix identifier
of the zoom level, tile column, protocol tile row computed as -y - 1,
with the dimensions merged on top. -/
def tileLocalContext (getMatrixId : Int → Str) (dimensions : List (Str × Str))
    (z x y : Int) : List (Str × Str) :=
  assignList
    [(tileMatrixKey, getMatrixId z), (tileColKey, intToStr x), (tileRowKey, intToStr (-y - 1))]
    dimensions

/-- The compiled addressing function returned by createFromWMTSTemplate_;
the external tile grid is represented by its getMatrixId method, taken as
a total function. -/
def createFromWMTSTemplate (requestEncoding : Str) (context : List (Str × Str))
    (getMatrixId : Int → Str) (dimensions : List (Str × Str)) (template : Str) :
    Option TileCoord → Rat → ProjT → Option Str :=
  let t := prepareTemplate requestEncoding context template
  fun tileCoord _pr _proj =>
    match tileCoord with
    | none => none
    | some zxy =>
      let localContext := tileLocalContext getMatrixId dimensions zxy.1 zxy.2.1 zxy.2.2
      some (if requestEncoding == KVPE then appendParams t localContext
            else restRuntimePass localContext t)

abbrev TileUrlFn := Option TileCoord → Rat → ProjT → Option Str

/-- Modelled from the spec: the null tile-URL function
(ol/tileurlfunction.js, outside the excerpt) produces no URL for any
input. -/
def nullTileUrlFunction : TileUrlFn := fun _ _ _ => none

/-- Modelled from the spec: `expandUrl` (ol/tileurlfunction.js, outside
the excerpt) turns one URL option into the list of templates handed to
the round-robin distribution utility; the range expansion itself is out
of scope for the claims, so the template is kept as the single
element. -/
def expandUrl (u : Str) : List Str := [u]

/-- Modelled from the spec: stable hash of a tile coordinate used by the
external distribution utility. -/
def tileCoordHash (c : TileCoord) : Nat := (c.1 + c.2.1 + c.2.2).natAbs

/-- Modelled from the spec: `createFromTileUrlFunctions`
(ol/tileurlfunction.js, outside the excerpt) composes one compiled
function per template; a single function is returned as is, otherwise an
absent coordinate yields no URL and a present one is dispatched by its
stable hash modulo the number of functions. -/
def createFromTileUrlFunctions (fs : List TileUrlFn) : TileUrlFn :=
  fun tileCoord pr proj =>
    match fs with
    | [f] => f tileCoord pr proj
    | _ =>
      match tileCoord with
      | none => none
      | some c =>
        match fs.get? (tileCoordHash c % fs.length) with
        | some f => f tileCoord pr proj
        | none => none

/-- Constructor options of the WMTS source (olx.source.WMTSOptions
restricted to the fields the excerpt reads); the tile grid option is
represented by its getMatrixId method. -/
structure WMTSSourceOptions where
  version : Option Str
  format : Option Str
  dimensions : List (Str × Str)
  layer : Str
  matrixSet : Str
  style : Str
  url : Option Str
  urls : Option (List Str)
  requestEncoding : Option Str
  getMatrixId : Int → Str

def wmtsVersion (o : WMTSSourceOptions) : Str := o.version.getD (("1.0.0").data)

def wmtsFormat (o : WMTSSourceOptions) : Str := o.format.getD (("image/jpeg").data)

def wmtsRequestEncoding (o : WMTSSourceOptions) : Str := o.requestEncoding.getD KVPE

/-- Static placeholder context assembled by the constructor: lower-case
layer, style and matrix-set keys, with the fixed protocol parameters
merged in for the KVP encoding. -/
def wmtsContext (o : WMTSSourceOptions) : List (Str × Str) :=
  let base := [(("layer").data, o.layer), (("style").data, o.style),
    (("tilematrixset").data, o.matrixSet)]
  if wmtsRequestEncoding o == KVPE then
    assignList base [(("Service").data, ("WMTS").data), (("Request").data, ("GetTile").data),
      (("Version").data, wmtsVersion o), (("Format").data, wmtsFormat o)]
  else base

/-- The tile-URL function the WMTS source is constructed with: the urls
option, or the expanded single url option, compiled template by template
and composed; with neither option present the null function. -/
def wmtsTileUrlFunction (o : WMTSSourceOptions) : TileUrlFn :=
  let urls : Option (List Str) :=
    match o.urls with
    | some us => some us
    | none => o.url.map expandUrl
  match urls with
  | some us =>
    if us.length > 0 then
      createFromTileUrlFunctions (us.map (createFromWMTSTemplate (wmtsRequestEncoding o)
        (wmtsContext o) o.getMatrixId o.dimensions))
    else nullTileUrlFunction
  | none => nullTileUrlFunction

/-- Dimension-manager state of a WMTS source: the owned dimensions
mapping and the published cache key. -/
structure WMTSState where
  dimensions : List (Str × Str)
  key : Str

/-- The key derivation of getKeyForDimensions_: each entry joined as
name-value with a dash, entries joined with a slash. -/
def getKeyForDimensions (dims : List (Str × Str)) : Str :=
  joinSep '/' (dims.map (fun kv => kv.1 ++ '-' :: kv.2))

/-- The updateDimensions operation: merge the patch into the owned
mapping and immediately republish the derived key. -/
def updateDimensions (st : WMTSState) (patch : List (Str × Str)) : WMTSState :=
  let d := assignList st.dimensions patch
  ⟨d, getKeyForDimensions d⟩

/-- Extent in the order the source indexes bounding-box arrays:
minimum x, minimum y, maximum x, maximum y. -/
structure Extent where
  minX : Rat
  minY : Rat
  maxX : Rat
  maxY : Rat
  deriving DecidableEq

/-- Modelled from the spec: `containsExtent` (ol/extent.js, outside the
excerpt) decides whether the second extent lies fully inside the
first. -/
def containsExtent (big small : Extent) : Bool :=
  decide (big.minX ≤ small.minX) && decide (small.maxX ≤ big.maxX) &&
    decide (big.minY ≤ small.minY) && decide (small.maxY ≤ big.maxY)

structure TmsLink where
  TileMatrixSet : Str
  TileMatrixSetLimits : Option (List Str)
  deriving DecidableEq

structure StyleD where
  Title : Option Str
  isDefault : Bool
  Identifier : Str
  deriving DecidableEq

structure DimensionD where
  Identifier : Str
  Default : Option Str
  Value : List Str
  deriving DecidableEq

structure ResourceUrlD where
  resourceType : Str
  format : Str
  template : Str
  deriving DecidableEq

structure LayerD where
  Identifier : Str
  TileMatrixSetLink : List TmsLink
  Format : List Str
  Style : List StyleD
  Dimension : Option (List DimensionD)
  ResourceURL : Option (List ResourceUrlD)
  WGS84BoundingBox : Option Extent
  deriving DecidableEq

structure MatrixSetD where
  Identifier : Str
  SupportedCRS : Option Str
  deriving DecidableEq

structure ConstraintD where
  name : Str
  allowedValues : Option (List Str)
  deriving DecidableEq

/-- One GetTile HTTP-GET binding of the operation metadata; an absent
href is embedded as the empty string, which shares its falsiness. -/
structure GetBindingD where
  href : Str
  constraint : Option (List ConstraintD)
  deriving DecidableEq

structure ContentsD where
  Layer : List LayerD
  TileMatrixSet : List MatrixSetD
  deriving DecidableEq

/-- Parsed capabilities document; the chain
OperationsMetadata.GetTile.DCP.HTTP.Get is collapsed into one optional
binding list. -/
structure CapsDoc where
  Contents : ContentsD
  OperationsMetadata : Option (List GetBindingD)
  deriving DecidableEq

/-- Configuration request handed to optionsFromCapabilities; optional
fields model presence of the property on the config object. -/
structure WMTSConfig where
  layer : Str
  matrixSet : Option Str
  projection : Option Str
  style : Option Str
  format : Option Str
  requestEncoding : Option Str
  crossOrigin : Option Str
  deriving DecidableEq

/-- External projection service (ol/proj.js, a black box per the spec):
registry lookup, equivalence test, validity extent, and the transform of
an extent from EPSG:4326 into a target projection. -/
structure ProjService where
  getProjection : Str → Option ProjT
  equivalent : ProjT → ProjT → Bool
  getExtent : ProjT → Option Extent
  transformExtent : Extent → ProjT → Extent

/-- Modelled from the spec: the external matrix-set-to-grid builder
(ol/tilegrid/WMTS.js, outside the excerpt), represented by the triple of
arguments handed to it. -/
structure TileGridD where
  matrixSet : MatrixSetD
  extent : Option Extent
  limits : Option (List Str)
  deriving DecidableEq

def createFromCapabilitiesMatrixSet (m : MatrixSetD) (e : Option Extent)
    (l : Option (List Str)) : TileGridD := ⟨m, e, l⟩

/-- Resolver output (the olx.source.WMTSOptions literal built at the end
of optionsFromCapabilities). -/
structure WMTSResolved where
  urls : List Str
  layer : Str
  matrixSet : Str
  format : Option Str
  projection : Option ProjT
  requestEncoding : Str
  tileGrid : TileGridD
  style : Str
  dimensions : List (Str × Option Str)
  wrapX : Option Bool
  crossOrigin : Option Str
  deriving DecidableEq

def urnPre : Str := ("urn:ogc:def:crs:").data

/-- Segment of a string after its last colon (the whole string when no
colon occurs). -/
def lastColonSeg (s : Str) : Str := (s.reverse.takeWhile (fun c => c ≠ ':')).reverse

/-- Attempt, at the head of the string, of the end-anchored pattern the
source replaces: the literal urn:ogc:def:crs: followed by a word group,
a colon, an optional dotless-greedy middle group ending in a colon, and
a final word group; on success the replacement first-group:third-group
is produced. -/
def crsMatchAt (s : Str) : Option Str :=
  if urnPre.isPrefixOf s then
    let rest := s.drop 16
    match rest.takeWhile isWordChar, rest.dropWhile isWordChar with
    | g1h :: g1t, ':' :: tail =>
      let seg := lastColonSeg tail
      if seg ≠ [] ∧ seg.all isWordChar then some ((g1h :: g1t) ++ ':' :: seg) else none
    | _, _ => none
  else none

def normalizeCrsAux : Str → Str
  | [] => []
  | a :: as =>
    match crsMatchAt (a :: as) with
    | some r => r
    | none => a :: normalizeCrsAux as

/-- Normalisation of a URN-style CRS code performed by the source's
String.replace: the leftmost match of the end-anchored URN pattern is
replaced by authority:code, an unmatched string staying unchanged. -/
def normalizeCrs (s : Str) : Str := normalizeCrsAux s

/-- Modelled from the spec: `find` (ol/array.js, outside the excerpt)
returns the first element satisfying the predicate, with the null result
embedded as the absent option. -/
def findOl (f : α → Bool) (l : List α) : Option α := l.find? f

/-- Modelled from the spec: `findIndex` (ol/array.js, outside the
excerpt) returns the index of the first element satisfying the
predicate, or -1. -/
def findIndexOl (f : α → Bool) : List α → Int
  | [] => -1
  | a :: as =>
    if f a then 0
    else
      let r := findIndexOl f as
      if r < 0 then -1 else r + 1

/-- Index search whose predicate may fail (embedding a loop whose body
can throw): index of the first element deciding true, -1 when none
does, the first failure propagating. -/
def findIndexE (f : α → Except Str Bool) : List α → Nat → Except Str Int
  | [], _ => .ok (-1)
  | a :: as, i =>
    match f a with
    | .error e => .error e
    | .ok true => .ok (i : Int)
    | .ok false => findIndexE f as (i + 1)

def errNoLinkedMatrixSet : Str := ("TileMatrixSetLink references a missing TileMatrixSet").data

def errNoCrs : Str := ("SupportedCRS is missing on a TileMatrixSet").data

def errNoLink : Str := ("layer advertises no TileMatrixSetLink").data

def errNoStyle : Str := ("layer advertises no Style").data

def errNoMatrixSet : Str := ("selected TileMatrixSet is missing from the document").data

def errNo4326 : Str := ("projection EPSG:4326 is unknown").data

def errNo4326Extent : Str := ("projection EPSG:4326 has no extent").data

def errNoProjection : Str := ("extent transform without a resolved projection").data

def errNoGetEncoding : Str := ("constrained binding without a GetEncoding constraint").data

def errNoAllowedValues : Str := ("GetEncoding constraint without allowed values").data

def errNoResourceUrl : Str := ("layer advertises no ResourceURL").data

def getEncodingStr : Str := ("GetEncoding").data

def tileStr : Str := ("tile").data

def epsg4326Str : Str := ("EPSG:4326").data

/-- Per-link test of the projection branch of the matrix-set selection
(lines 351-365 of the source): the link's matrix set is dereferenced (a
missing one reproduces the null dereference of the source as an error),
its CRS is looked up normalised first and raw second, and equivalence
against the configured projection is decided by the projection service,
falling back to raw string comparison when either lookup fails. -/
def linkMatchesProjection (svc : ProjService) (tileMatrixSets : List MatrixSetD)
    (cfgProj : Str) (link : TmsLink) : Except Str Bool :=
  match findOl (fun el => el.Identifier == link.TileMatrixSet) tileMatrixSets with
  | none => .error errNoLinkedMatrixSet
  | some tms =>
    match tms.SupportedCRS with
    | none => .error errNoCrs
    | some supportedCRS =>
      let proj1 := (svc.getProjection (normalizeCrs supportedCRS)).orElse
        (fun _ => svc.getProjection supportedCRS)
      let proj2 := svc.getProjection cfgProj
      match proj1, proj2 with
      | some p1, some p2 => .ok (svc.equivalent p1 p2)
      | _, _ => .ok (supportedCRS == cfgProj)

/-- Matrix-set link selection of optionsFromCapabilities (lines 348-377
of the source), including the final clamp of a negative index to the
first link: with more than one link, a supplied config projection routes
to the projection-equivalence scan and otherwise the matrix-set
identifiers are compared against the config matrix set; with at most one
link the first index is used directly. -/
def selectLinkIdx (svc : ProjService) (tileMatrixSets : List MatrixSetD)
    (links : List TmsLink) (config : WMTSConfig) : Except Str Int :=
  let step : Except Str Int :=
    if links.length > 1 then
      match config.projection with
      | some cfgProj => findIndexE (linkMatchesProjection svc tileMatrixSets cfgProj) links 0
      | none => .ok (findIndexOl (fun elt => some elt.TileMatrixSet == config.matrixSet) links)
    else .ok 0
  match step with
  | .error e => .error e
  | .ok idx => .ok (if idx < 0 then 0 else idx)

/-- Projection derived from the selected matrix set's CRS code (lines
417-421 of the source): a truthy code is looked up normalised first and
raw second. -/
def derivedProjection (svc : ProjService) (code : Option Str) : Option ProjT :=
  match code with
  | some cs =>
    if cs ≠ [] then
      (svc.getProjection (normalizeCrs cs)).orElse (fun _ => svc.getProjection cs)
    else none
  | none => none

/-- Projection resolution of optionsFromCapabilities (lines 416-429 of
the source): the derived projection, possibly replaced by a resolvable
configured projection when the derived one is absent or equivalent. -/
def resolveProjection (svc : ProjService) (code : Option Str) (cfgProj : Option Str) :
    Option ProjT :=
  let projection := derivedProjection svc code
  match cfgProj with
  | none => projection
  | some ps =>
    match svc.getProjection ps with
    | none => projection
    | some projConfig =>
      match projection with
      | none => some projConfig
      | some d => if svc.equivalent projConfig d then some projConfig else some d

/-- Extent and wrap-around resolution of optionsFromCapabilities (lines
431-447 of the source): with a declared WGS84 bounding box the wrap flag
compares its horizontal bounds with the full EPSG:4326 extent, the box
is transformed into the resolved projection, and a transformed extent
not contained in the projection's validity extent is discarded. -/
def resolveExtentWrap (svc : ProjService) (bbox : Option Extent) (projection : Option ProjT) :
    Except Str (Option Extent × Option Bool) :=
  match bbox with
  | none => .ok (none, none)
  | some wgs84BoundingBox =>
    match svc.getProjection epsg4326Str with
    | none => .error errNo4326
    | some p4326 =>
      match svc.getExtent p4326 with
      | none => .error errNo4326Extent
      | some wgs84ProjectionExtent =>
        let wrapX := wgs84BoundingBox.minX == wgs84ProjectionExtent.minX &&
          wgs84BoundingBox.maxX == wgs84ProjectionExtent.maxX
        match projection with
        | none => .error errNoProjection
        | some p =>
          let extent := svc.transformExtent wgs84BoundingBox p
          match svc.getExtent p with
          | none => .ok (some extent, some wrapX)
          | some projectionExtent =>
            if containsExtent projectionExtent extent then .ok (some extent, some wrapX)
            else .ok (none, some wrapX)

/-- The GetTile binding scan of optionsFromCapabilities (lines 459-481
of the source), carried out on the binding list with the current
encoding and collected URLs as loop state; the source's break is the
early ok return. -/
def scanBindings : List GetBindingD → Str → List Str → Except Str (Str × List Str)
  | [], enc, urls => .ok (enc, urls)
  | g :: rest, enc, urls =>
    match g.constraint with
    | some cs =>
      match findOl (fun element => element.name == getEncodingStr) cs with
      | none => .error errNoGetEncoding
      | some constraint =>
        match constraint.allowedValues with
        | none => .error errNoAllowedValues
        | some encodings =>
          let enc2 := if enc == ([] : Str) then encodings.headD ([] : Str) else enc
          if enc2 == KVPE then
            scanBindings rest enc2 (if encodings.contains KVPE then urls ++ [g.href] else urls)
          else .ok (enc2, urls)
    | none =>
      if g.href ≠ [] then scanBindings rest KVPE (urls ++ [g.href])
      else scanBindings rest enc urls

/-- Request-encoding and URL negotiation of optionsFromCapabilities
(lines 451-491 of the source): the binding scan seeded with the config
encoding (empty when absent), then the REST fallback onto the layer's
tile resource templates when no URL was collected, the last matching
template also overriding the format. -/
def negotiateUrls (caps : CapsDoc) (l : LayerD) (cfgEnc : Option Str) (format0 : Option Str) :
    Except Str (Str × List Str × Option Str) :=
  let enc0 := cfgEnc.getD ([] : Str)
  let scanRes : Except Str (Str × List Str) :=
    match caps.OperationsMetadata with
    | some gets => scanBindings gets enc0 []
    | none => .ok (enc0, ([] : List Str))
  match scanRes with
  | .error e => .error e
  | .ok scanned =>
    if scanned.2 = [] then
      match l.ResourceURL with
      | none => .error errNoResourceUrl
      | some rus =>
        let tiles := rus.filter (fun element => element.resourceType == tileStr)
        .ok (RESTE, tiles.map (fun element => element.template),
          match tiles.getLast? with
          | some t => some t.format
          | none => format0)
    else .ok (scanned.1, scanned.2, format0)

/-- Resolution steps of optionsFromCapabilities after a successful layer
lookup (lines 347-505 of the source), in source order; a JavaScript
property access on a missing object is an error. -/
def resolveForLayer (svc : ProjService) (caps : CapsDoc) (config : WMTSConfig) (l : LayerD) :
    Except Str WMTSResolved := do
  let tileMatrixSets := caps.Contents.TileMatrixSet
  let idx ← selectLinkIdx svc tileMatrixSets l.TileMatrixSetLink config
  let link ←
    match l.TileMatrixSetLink.get? idx.toNat with
    | some lk => Except.ok lk
    | none => .error errNoLink
  let matrixSet := link.TileMatrixSet
  let matrixLimits := link.TileMatrixSetLimits
  let format : Option Str :=
    match config.format with
    | some f => some f
    | none => l.Format.head?
  let sidx0 := findIndexOl (fun elt =>
    match config.style with
    | some s => elt.Title == some s
    | none => elt.isDefault) l.Style
  let sidx := if sidx0 < 0 then 0 else sidx0
  let style ←
    match l.Style.get? sidx.toNat with
    | some st => Except.ok st.Identifier
    | none => .error errNoStyle
  let dimensions := (l.Dimension.getD []).foldl
    (fun acc elt => objSet acc (elt.Identifier,
      match elt.Default with
      | some v => some v
      | none => elt.Value.head?)) []
  let matrixSetObj ←
    match findOl (fun elt => elt.Identifier == matrixSet) tileMatrixSets with
    | some m => Except.ok m
    | none => .error errNoMatrixSet
  let projection := resolveProjection svc matrixSetObj.SupportedCRS config.projection
  let ew ← resolveExtentWrap svc l.WGS84BoundingBox projection
  let tileGrid := createFromCapabilitiesMatrixSet matrixSetObj ew.1 matrixLimits
  let nego ← negotiateUrls caps l config.requestEncoding format
  .ok ⟨nego.2.1, config.layer, matrixSet, nego.2.2, projection, nego.1, tileGrid, style,
    dimensions, ew.2, config.crossOrigin⟩

/-- The capabilities resolver optionsFromCapabilities: a failed layer
lookup yields the defined absence, any other outcome comes from the
per-layer resolution. -/
def optionsFromCapabilities (svc : ProjService) (wmtsCap : CapsDoc) (config : WMTSConfig) :
    Except Str (Option WMTSResolved) :=
  match findOl (fun elt => elt.Identifier == config.layer) wmtsCap.Contents.Layer with
  | none => .ok none
  | some l => (resolveForLayer svc wmtsCap config l).map some

instance {α β : Type} [DecidableEq α] [DecidableEq β] : DecidableEq (Except α β) := fun a b =>
  match a, b with
  | .ok x, .ok y => if h : x = y then .isTrue (by rw [h]) else .isFalse (by simp [h])
  | .error x, .error y => if h : x = y then .isTrue (by rw [h]) else .isFalse (by simp [h])
  | .ok _, .error _ => .isFalse (by simp)
  | .error _, .ok _ => .isFalse (by simp)

/-- A projection service whose registry is empty: every lookup fails,
equivalence always denies, no extents, the identity transform.  Used for
concrete evaluations of the resolver. -/
def svcNone : ProjService := ⟨fun _ => none, fun _ _ => false, fun _ => none, fun e _ => e⟩

/-- Refinement reference for the URL negotiation, following the words of
the spec for a supplied KVP encoding: the URLs collected from the GetTile
bindings are those whose GetEncoding constraint allows KVP, plus every
unconstrained binding with a nonempty href. -/
def collectKvpUrls (gets : List GetBindingD) : List Str :=
  gets.filterMap (fun g =>
    match g.constraint with
    | some cs =>
      match findOl (fun element => element.name == getEncodingStr) cs with
      | some c =>
        match c.allowedValues with
        | some encodings => if encodings.contains KVPE then some g.href else none
        | none => none
      | none => none
    | none => if g.href ≠ [] then some g.href else none)

/-- Well-formed binding list: every constrained binding carries a
GetEncoding constraint with an allowed-values list. -/
def BindingsWf (gets : List GetBindingD) : Prop :=
  ∀ g ∈ gets, ∀ cs, g.constraint = some cs →
    ∃ c, findOl (fun element => element.name == getEncodingStr) cs = some c ∧
      ∃ encs, c.allowedValues = some encs

/-- Capabilities document of the link-selection scenario: one layer with
two links, the first one to a matrix set whose CRS literally equals the
requested projection, the second one named by the config matrix set. -/
def capsLinkSel : CapsDoc := ⟨⟨[⟨("L").data,
  [⟨("A").data, none⟩, ⟨("B").data, none⟩],
  [("image/jpeg").data],
  [⟨none, true, ("sid").data⟩],
  none,
  some [⟨("tile").data, ("image/png").data, ("http://t").data⟩],
  none⟩],
  [⟨("A").data, some (("P").data)⟩, ⟨("B").data, some (("Q").data)⟩]⟩, none⟩

/-- Config of the link-selection scenario: both a matrix set (naming the
second link) and a projection (matching the first link) supplied. -/
def cfgLinkSel : WMTSConfig :=
  ⟨("L").data, some (("B").data), some (("P").data), none, none, none, none⟩

/-- Layer of the encoding scenario. -/
def layerEnc : LayerD := ⟨("L").data,
  [⟨("A").data, none⟩],
  [("image/jpeg").data],
  [⟨none, true, ("sid").data⟩],
  none, none, none⟩

/-- Capabilities document of the encoding scenario: a single
unconstrained GetTile binding. -/
def capsEnc : CapsDoc := ⟨⟨[layerEnc],
  [⟨("A").data, some (("P").data)⟩]⟩,
  some [⟨("http://a/").data, none⟩]⟩

/-- Config of the encoding scenario: REST encoding supplied. -/
def cfgEnc : WMTSConfig := ⟨("L").data, none, none, none, none, some RESTE, none⟩

/-- Malformed capabilities document: the layer is present but the matrix
set its single link references is missing from the matrix-set list. -/
def capsMalformed : CapsDoc := ⟨⟨[⟨("L").data,
  [⟨("A").data, none⟩],
  [("image/jpeg").data],
  [⟨none, true, ("sid").data⟩],
  none, none, none⟩],
  []⟩, none⟩

/-- Config naming the present layer of the malformed document. -/
def cfgLayerL : WMTSConfig := ⟨("L").data, none, none, none, none, none, none⟩

/-- Config naming a layer absent from every example document. -/
def cfgLayerMissing : WMTSConfig := ⟨("M").data, none, none, none, none, none, none⟩

/-- Projection service of the witness scenarios: only EPSG:4326 is
registered, with the WGS84 extent, equivalence by identity, and the
identity transform. -/
def svcW : ProjService :=
  ⟨fun s => if s = epsg4326Str then some epsg4326Str else none,
   fun a b => a == b,
   fun p => if p = epsg4326Str then some ⟨-180, -90, 180, 90⟩ else none,
   fun e _ => e⟩

/-- Constructor options with neither a url nor a urls option. -/
def oNoUrl : WMTSSourceOptions :=
  ⟨none, none, [], ("l").data, ("m").data, ("s").data, none, none, none, fun _ => []⟩

/-- Constructor options of the REST placeholder scenario: a single REST
template containing one placeholder matching no context key. -/
def oRest : WMTSSourceOptions :=
  ⟨none, none, [], ("L").data, ("M").data, ("S").data,
   some (("http://h/{Foo}").data), none, some RESTE, fun _ => ("0").data⟩

/-- Constructor options of the KVP witness scenario. -/
def oKvp : WMTSSourceOptions :=
  ⟨none, none, [], ("L").data, ("M").data, ("S").data,
   some (("http://h").data), none, none, fun _ => ("0").data⟩


theorem lookupStr_append {α : Type} (k : Str) (a b : List (Str × α)) :
    lookupStr k (a ++ b) = (lookupStr k a).orElse (fun _ => lookupStr k b) := by
  induction a with
  | nil => simp [lookupStr, Option.none_orElse']
  | cons kv t ih =>
    by_cases h : kv.1 = k
    · simp [lookupStr, h, Option.some_orElse']
    · simp [lookupStr, h, ih]

theorem lookupStr_eq_none_of_not_mem {α : Type} (k : Str) (d : List (Str × α))
    (h : k ∉ d.map Prod.fst) : lookupStr k d = none := by
  induction d with
  | nil => rfl
  | cons kv t ih =>
    simp only [List.map_cons, List.mem_cons, not_or] at h
    have h1 : kv.1 ≠ k := fun he => h.1 he.symm
    simp [lookupStr, h1, ih h.2]

theorem mem_of_lookupStr {α : Type} (k : Str) (d : List (Str × α)) (v : α)
    (h : lookupStr k d = some v) : (k, v) ∈ d := by
  induction d with
  | nil => simp [lookupStr] at h
  | cons kv t ih =>
    rcases kv with ⟨k1, v1⟩
    by_cases hb : k1 = k
    · subst hb
      simp [lookupStr] at h
      subst h
      exact List.mem_cons_self _ _
    · simp [lookupStr, hb] at h
      exact List.mem_cons_of_mem _ (ih h)

theorem lookupStr_map_objSetFn {α : Type} (k k0 : Str) (v0 : α) (d : List (Str × α)) :
    lookupStr k (d.map (fun p => if p.1 == k0 then (p.1, v0) else p)) =
      (lookupStr k d).map (fun v => if k == k0 then v0 else v) := by
  induction d with
  | nil => simp [lookupStr]
  | cons kv t ih =>
    rcases kv with ⟨k1, v1⟩
    by_cases h0 : k1 = k0 <;> by_cases hk : k1 = k
    · subst h0; subst hk
      simp [lookupStr]
    · subst h0
      simp only [beq_iff_eq] at ih
      simp [lookupStr, hk, ih]
    · subst hk
      have hne : ¬ k1 = k0 := h0
      simp [lookupStr, hne]
    · simp only [beq_iff_eq] at ih
      simp [lookupStr, h0, hk, ih]

theorem lookupStr_isSome_of_any {α : Type} (k : Str) (d : List (Str × α))
    (h : d.any (fun p => p.1 == k) = true) : (lookupStr k d).isSome = true := by
  induction d with
  | nil => simp at h
  | cons kv t ih =>
    by_cases hb : kv.1 = k
    · simp [lookupStr, hb]
    · simp only [List.any_cons, Bool.or_eq_true] at h
      rcases h with h | h
      · exact absurd (by simpa [beq_iff_eq] using h) hb
      · simp [lookupStr, hb, ih h]

theorem lookupStr_objSet {α : Type} (d : List (Str × α)) (k0 : Str) (v0 : α) (k : Str) :
    lookupStr k (objSet d (k0, v0)) = if k0 == k then some v0 else lookupStr k d := by
  unfold objSet
  by_cases hany : d.any (fun p => p.1 == k0) = true
  · rw [if_pos hany, lookupStr_map_objSetFn]
    by_cases hk : k0 = k
    · subst hk
      have hs := lookupStr_isSome_of_any k0 d hany
      cases hv : lookupStr k0 d with
      | none => rw [hv] at hs; simp at hs
      | some v => simp [hv]
    · have hkk : ¬ k = k0 := fun he => hk he.symm
      cases hv : lookupStr k d <;> simp [hv, hk, hkk]
  · rw [if_neg hany, lookupStr_append]
    by_cases hk : k0 = k
    · subst hk
      have hnone : lookupStr k0 d = none := by
        apply lookupStr_eq_none_of_not_mem
        intro hmem
        apply hany
        rw [List.any_eq_true]
        simp only [List.mem_map] at hmem
        obtain ⟨p, hp, hpk⟩ := hmem
        exact ⟨p, hp, by simp [hpk]⟩
      simp [hnone, lookupStr, Option.none_orElse']
    · cases hv : lookupStr k d <;>
        simp [hv, lookupStr, hk, Option.orElse]

theorem lookupStr_assignList {α : Type} (p d : List (Str × α)) (k : Str) :
    lookupStr k (assignList d p) =
      (lookupStr k p.reverse).orElse (fun _ => lookupStr k d) := by
  induction p generalizing d with
  | nil => simp [assignList, lookupStr, Option.none_orElse']
  | cons kv t ih =>
    rcases kv with ⟨k0, v0⟩
    have hstep : assignList d ((k0, v0) :: t) = assignList (objSet d (k0, v0)) t := rfl
    rw [hstep, ih, List.reverse_cons, lookupStr_append, lookupStr_objSet]
    by_cases hk : k0 = k
    · subst hk
      have h1 : lookupStr k0 ([(k0, v0)] : List (Str × α)) = some v0 := by simp [lookupStr]
      rw [h1]
      cases hv : lookupStr k0 t.reverse <;>
        simp [Option.some_orElse', Option.none_orElse', Option.orElse]
    · have h1 : lookupStr k ([(k0, v0)] : List (Str × α)) = none := by simp [lookupStr, hk]
      rw [h1]
      have h2 : ¬ (k0 == k) = true := by simp [hk]
      rw [if_neg h2]
      cases hv : lookupStr k t.reverse <;> simp [hv, Option.orElse]

theorem splitSep_ne_nil (c : Char) (s : Str) : splitSep c s ≠ [] := by
  cases s with
  | nil => simp [splitSep]
  | cons a as =>
    simp only [splitSep]
    split
    · simp
    · cases h : splitSep c as <;> simp

theorem splitSep_append_sep (c : Char) (xs ys : Str) :
    splitSep c (xs ++ c :: ys) = splitSep c xs ++ splitSep c ys := by
  induction xs with
  | nil => simp [splitSep]
  | cons a as ih =>
    by_cases h : a = c
    · subst h
      simp [splitSep, ih]
    · rw [List.cons_append]
      simp only [splitSep, if_neg h]
      rw [ih]
      cases hs : splitSep c as with
      | nil => exact absurd hs (splitSep_ne_nil c as)
      | cons hh tt => simp

theorem splitSep_eq_single (c : Char) (xs : Str) (h : c ∉ xs) : splitSep c xs = [xs] := by
  induction xs with
  | nil => rfl
  | cons a as ih =>
    simp only [List.mem_cons, not_or] at h
    have hne : ¬ a = c := fun he => h.1 he.symm
    simp [splitSep, hne, ih h.2]

theorem mem_splitSep_joinSep (c : Char) (l : List Str) (e : Str) (hc : c ∉ e) :
    e ∈ l → e ∈ splitSep c (joinSep c l) := by
  induction l with
  | nil => intro h; cases h
  | cons x xs ih =>
    intro he
    cases xs with
    | nil =>
      simp only [List.mem_singleton] at he
      subst he
      simp [joinSep, splitSep_eq_single c e hc]
    | cons y ys =>
      simp only [joinSep]
      rw [splitSep_append_sep]
      rcases List.mem_cons.mp he with he1 | he2
      · subst he1
        exact List.mem_append_left _ (by simp [splitSep_eq_single c e hc])
      · exact List.mem_append_right _ (ih he2)

theorem queryOf_append (a b : Str) (h : '?' ∈ a) : queryOf (a ++ b) = queryOf a ++ b := by
  induction a with
  | nil => cases h
  | cons x xs ih =>
    by_cases hx : x = '?'
    · subst hx
      simp [queryOf]
    · have h2 : '?' ∈ xs := by
        rcases List.mem_cons.mp h with h1 | h1
        · exact absurd h1.symm hx
        · exact h1
      simp [queryOf, hx, ih h2]

theorem takeWhile_append_of_all (p : Char → Bool) (a : Str) (b0 : Char) (b : Str)
    (ha : ∀ x ∈ a, p x = true) (hb : p b0 = false) :
    (a ++ b0 :: b).takeWhile p = a := by
  induction a with
  | nil => simp [List.takeWhile, hb]
  | cons x xs ih =>
    have hx : p x = true := ha x (List.mem_cons_self _ _)
    simp [List.takeWhile, hx, ih (fun y hy => ha y (List.mem_cons_of_mem _ hy))]

theorem dropWhile_append_of_all (p : Char → Bool) (a : Str) (b0 : Char) (b : Str)
    (ha : ∀ x ∈ a, p x = true) (hb : p b0 = false) :
    (a ++ b0 :: b).dropWhile p = b0 :: b := by
  induction a with
  | nil => simp [List.dropWhile, hb]
  | cons x xs ih =>
    have hx : p x = true := ha x (List.mem_cons_self _ _)
    simp [List.dropWhile, hx, ih (fun y hy => ha y (List.mem_cons_of_mem _ hy))]

theorem digitCh_isDigit (d : Nat) (h : d < 10) : (digitCh d).isDigit = true := by
  interval_cases d <;> decide

theorem natToStrGo_all_digit (fuel n : Nat) : ∀ c ∈ natToStrGo fuel n, c.isDigit = true := by
  induction fuel generalizing n with
  | zero => intro c hc; cases hc
  | succ fuel ih =>
    intro c hc
    rw [natToStrGo] at hc
    split at hc
    · simp only [List.mem_singleton] at hc
      subst hc
      rename_i h
      exact digitCh_isDigit n h
    · simp only [List.mem_append, List.mem_singleton] at hc
      rcases hc with hc | hc
      · exact ih (n / 10) c hc
      · subst hc
        exact digitCh_isDigit (n % 10) (Nat.mod_lt _ (by omega))

theorem natToStr_all_digit (n : Nat) : ∀ c ∈ natToStr n, c.isDigit = true :=
  natToStrGo_all_digit (n + 1) n

theorem isDigit_ne_amp_eq (c : Char) (h : c.isDigit = true) : c ≠ '&' ∧ c ≠ '=' := by
  constructor <;> intro he <;> subst he <;> exact absurd h (by decide)

theorem intToStr_ne_amp_eq (i : Int) : ∀ c ∈ intToStr i, c ≠ '&' ∧ c ≠ '=' := by
  intro c hc
  unfold intToStr at hc
  split at hc
  · simp only [List.mem_cons] at hc
    rcases hc with hc | hc
    · subst hc
      exact ⟨by decide, by decide⟩
    · exact isDigit_ne_amp_eq c (natToStr_all_digit _ c hc)
  · exact isDigit_ne_amp_eq c (natToStr_all_digit _ c hc)

theorem queryOf_append_qm (u w : Str) (h : '?' ∉ u) : queryOf (u ++ '?' :: w) = w := by
  induction u with
  | nil => simp [queryOf]
  | cons x xs ih =>
    simp only [List.mem_cons, not_or] at h
    have hx : ¬ x = '?' := fun he => h.1 he.symm
    simp [queryOf, hx, ih h.2]

theorem pieceKey_of_key_val (k v : Str) (hk : '=' ∉ k) : pieceKey (k ++ '=' :: v) = k := by
  induction k with
  | nil => simp [pieceKey]
  | cons c cs ih =>
    simp only [List.mem_cons, not_or] at hk
    have hc : ¬ c = '=' := fun he => hk.1 he.symm
    simp [pieceKey, hc, ih hk.2]

theorem pieceVal_of_key_val (k v : Str) (hk : '=' ∉ k) : pieceVal (k ++ '=' :: v) = v := by
  induction k with
  | nil => simp [pieceVal]
  | cons c cs ih =>
    simp only [List.mem_cons, not_or] at hk
    have hc : ¬ c = '=' := fun he => hk.1 he.symm
    simp [pieceVal, hc, ih hk.2]

theorem mem_queryPairs_appendParams (u : Str) (ps : List (Str × Str)) (k v : Str)
    (hk : (k, v) ∈ ps) (hfresh : k ∉ queryKeys u)
    (hkamp : '&' ∉ k) (hkeq : '=' ∉ k) (hvamp : '&' ∉ v) :
    (k, v) ∈ queryPairs (appendParams u ps) := by
  set fresh := ps.filter (fun kv => !((queryKeys u).contains kv.1)) with hfr
  set qs := joinSep '&' (fresh.map (fun kv => kv.1 ++ '=' :: kv.2)) with hqs
  have hmemfresh : (k, v) ∈ fresh := by
    rw [hfr]
    apply List.mem_filter.mpr
    refine ⟨hk, ?_⟩
    simpa using hfresh
  have hmement : (k ++ '=' :: v) ∈ fresh.map (fun kv => kv.1 ++ '=' :: kv.2) :=
    List.mem_map_of_mem _ hmemfresh
  have hamp : '&' ∉ (k ++ '=' :: v) := by
    intro hc
    rcases List.mem_append.mp hc with hc | hc
    · exact hkamp hc
    · rcases List.mem_cons.mp hc with hc | hc
      · cases hc
      · exact hvamp hc
  have hsplit : (k ++ '=' :: v) ∈ splitSep '&' qs :=
    mem_splitSep_joinSep '&' _ _ hamp hmement
  have hparsed : (k, v) ∈ (splitSep '&' qs).map (fun p => (pieceKey p, pieceVal p)) :=
    List.mem_map.mpr ⟨k ++ '=' :: v, hsplit,
      by rw [pieceKey_of_key_val k v hkeq, pieceVal_of_key_val k v hkeq]⟩
  have happ : appendParams u ps = (if '?' ∈ u then u ++ ['&'] else u ++ ['?']) ++ qs := rfl
  rw [happ]
  by_cases hq : '?' ∈ u
  · rw [if_pos hq, List.append_assoc]
    show (k, v) ∈ queryPairs (u ++ '&' :: qs)
    simp only [queryPairs, queryPieces]
    rw [queryOf_append u ('&' :: qs) hq, splitSep_append_sep, List.map_append]
    exact List.mem_append_right _ hparsed
  · rw [if_neg hq, List.append_assoc]
    show (k, v) ∈ queryPairs (u ++ '?' :: qs)
    simp only [queryPairs, queryPieces]
    rw [queryOf_append_qm u qs hq]
    exact hparsed

theorem replaceTpl_decomp (f : Str → Option Str) (pre name post : Str)
    (hpre : '{' ∉ pre) (hname : name ≠ []) (hword : ∀ c ∈ name, isWordChar c = true) :
    replaceTpl f (pre ++ '{' :: (name ++ '}' :: post)) =
      pre ++ ((f name).getD ('{' :: (name ++ ['}']))) ++ replaceTpl f post := by
  have hdw : (name ++ '}' :: post).dropWhile isWordChar = '}' :: post :=
    dropWhile_append_of_all _ _ _ _ hword (by decide)
  have htw : (name ++ '}' :: post).takeWhile isWordChar = name :=
    takeWhile_append_of_all _ _ _ _ hword (by decide)
  have hne : name.isEmpty = false := by
    cases name with
    | nil => exact absurd rfl hname
    | cons c cs => rfl
  induction pre with
  | nil =>
    simp only [List.nil_append]
    rw [replaceTpl, if_pos rfl]
    split
    · rename_i tail heq
      rw [hdw] at heq
      injection heq with h1 h2
      subst h2
      rw [htw, hne]
      simp
    · rename_i heq
      rw [hdw] at heq
      exact absurd rfl (heq post)
  | cons c cs ih =>
    simp only [List.mem_cons, not_or] at hpre
    have hc : ¬ c = '{' := fun he => hpre.1 he.symm
    rw [List.cons_append, replaceTpl, if_neg hc]
    rw [ih hpre.2]
    simp

theorem findIndexOl_all_false {α : Type} (f : α → Bool) (l : List α)
    (h : ∀ x ∈ l, f x = false) : findIndexOl f l = -1 := by
  induction l with
  | nil => rfl
  | cons a as ih =>
    have ha := h a (List.mem_cons_self _ _)
    simp [findIndexOl, ha, ih (fun x hx => h x (List.mem_cons_of_mem _ hx))]

theorem findIndexOl_first {α : Type} (f : α → Bool) (l : List α) (i : Nat) (x : α)
    (hget : l.get? i = some x) (hx : f x = true)
    (hprev : ∀ j y, j < i → l.get? j = some y → f y = false) :
    findIndexOl f l = (i : Int) := by
  induction l generalizing i with
  | nil => simp at hget
  | cons a as ih =>
    cases i with
    | zero =>
      simp only [List.get?_cons_zero] at hget
      injection hget with h
      subst h
      simp [findIndexOl, hx]
    | succ n =>
      have ha : f a = false := hprev 0 a (Nat.succ_pos n) rfl
      have hrec := ih n (by simpa using hget)
        (fun j y hj hg => hprev (j + 1) y (by omega) (by simpa using hg))
      simp only [findIndexOl, ha, Bool.false_eq_true, if_false, hrec]
      have hge : ¬ ((n : Int) < 0) := by omega
      rw [if_neg hge]
      push_cast
      ring

theorem findIndexE_all_false {α : Type} (g : α → Except Str Bool) (l : List α)
    (h : ∀ x ∈ l, g x = .ok false) : ∀ i0 : Nat, findIndexE g l i0 = .ok (-1) := by
  induction l with
  | nil => intro i0; rfl
  | cons a as ih =>
    intro i0
    have ha := h a (List.mem_cons_self _ _)
    simp [findIndexE, ha, ih (fun x hx => h x (List.mem_cons_of_mem _ hx)) (i0 + 1)]

theorem findIndexE_first {α : Type} (g : α → Except Str Bool) (l : List α) (i : Nat) (x : α)
    (hget : l.get? i = some x) (hx : g x = .ok true)
    (hprev : ∀ j y, j < i → l.get? j = some y → g y = .ok false) :
    ∀ i0 : Nat, findIndexE g l i0 = .ok ((i0 : Int) + i) := by
  induction l generalizing i with
  | nil => simp at hget
  | cons a as ih =>
    intro i0
    cases i with
    | zero =>
      simp only [List.get?_cons_zero] at hget
      injection hget with h
      subst h
      simp [findIndexE, hx]
    | succ n =>
      have ha : g a = .ok false := hprev 0 a (Nat.succ_pos n) rfl
      have hrec := ih n (by simpa using hget)
        (fun j y hj hg => hprev (j + 1) y (by omega) (by simpa using hg)) (i0 + 1)
      simp only [findIndexE, ha, hrec]
      have harith : ((i0 + 1 : Nat) : Int) + (n : Int) = (i0 : Int) + ((n + 1 : Nat) : Int) := by
        push_cast
        ring
      rw [harith]

theorem scanBindings_kvp (gets : List GetBindingD) (hwf : BindingsWf gets) :
    ∀ urls0 : List Str, scanBindings gets KVPE urls0 = .ok (KVPE, urls0 ++ collectKvpUrls gets) := by
  induction gets with
  | nil => intro urls0; simp [scanBindings, collectKvpUrls]
  | cons g rest ih =>
    intro urls0
    have hwfrest : BindingsWf rest := fun x hx => hwf x (List.mem_cons_of_mem _ hx)
    cases hc : g.constraint with
    | some cs =>
      obtain ⟨c, hfind, encs, hvals⟩ := hwf g (List.mem_cons_self _ _) cs hc
      have h1 : (KVPE == ([] : Str)) = false := by decide
      have h2 : (KVPE == KVPE) = true := by decide
      simp only [scanBindings, hc, hfind, hvals, h1, Bool.false_eq_true, if_false, h2, if_true]
      rw [ih hwfrest]
      rcases Bool.eq_false_or_eq_true (encs.contains KVPE) with hcont | hcont
      · have hmem : KVPE ∈ encs := by simpa using hcont
        simp only [hcont, if_true]
        simp [collectKvpUrls, List.filterMap_cons, hc, hfind, hvals, hmem]
      · have hmem : ¬ KVPE ∈ encs := by simpa using hcont
        simp only [hcont, Bool.false_eq_true, if_false]
        simp [collectKvpUrls, List.filterMap_cons, hc, hfind, hvals, hmem]
    | none =>
      by_cases hh : g.href = []
      · simp only [scanBindings, hc, hh]
        rw [if_neg (by simp)]
        rw [ih hwfrest]
        simp [collectKvpUrls, hc, hh]
      · simp only [scanBindings, hc]
        rw [if_pos hh]
        rw [ih hwfrest]
        simp [collectKvpUrls, hc, hh]

/-- C9: updateDimensions merges the patch into the existing mapping
(overwriting existing keys, adding new ones, never removing any: the
lookup of the updated mapping is the last patch binding when the patch
has the key and the old binding otherwise) and immediately republishes
the key derived by joining name-value entries with a dash inside entries
and a slash between entries; in particular updating with time 2020 and
then with time 2021 plus elevation 100 yields the mapping with both final
entries, a key carrying both, and two successive keys that differ. -/
theorem updateDimensions_merge_and_key :
    (∀ (st : WMTSState) (patch : List (Str × Str)) (k : Str),
        lookupStr k (updateDimensions st patch).dimensions =
          (lookupStr k patch.reverse).orElse (fun _ => lookupStr k st.dimensions))
    ∧ (∀ (st : WMTSState) (patch : List (Str × Str)),
        (updateDimensions st patch).key =
          getKeyForDimensions (updateDimensions st patch).dimensions)
    ∧ ((updateDimensions (updateDimensions ⟨[], getKeyForDimensions []⟩
          [(("time").data, ("2020").data)])
          [(("time").data, ("2021").data), (("elevation").data, ("100").data)]).dimensions =
        [(("time").data, ("2021").data), (("elevation").data, ("100").data)]
      ∧ (updateDimensions (updateDimensions ⟨[], getKeyForDimensions []⟩
          [(("time").data, ("2020").data)])
          [(("time").data, ("2021").data), (("elevation").data, ("100").data)]).key =
        ("time-2021/elevation-100").data
      ∧ (updateDimensions (⟨[], getKeyForDimensions []⟩ : WMTSState)
          [(("time").data, ("2020").data)]).key ≠
        (updateDimensions (updateDimensions ⟨[], getKeyForDimensions []⟩
          [(("time").data, ("2020").data)])
          [(("time").data, ("2021").data), (("elevation").data, ("100").data)]).key) := by
  refine ⟨?_, ?_, ?_, ?_, ?_⟩
  · intro st patch k
    exact lookupStr_assignList patch st.dimensions k
  · intro st patch
    rfl
  · decide
  · decide
  · decide

/-- C5: a compiled addressing function, KVP or REST, yields the defined
absence for an absent tile coordinate and a URL string for every present
one, never an error; the composed constructor-level function likewise
yields absence for an absent coordinate. -/
theorem compiled_function_total :
    (∀ (enc : Str) (ctx : List (Str × Str)) (gmi : Int → Str) (dims : List (Str × Str))
        (tpl : Str) (pr : Rat) (proj : ProjT),
        createFromWMTSTemplate enc ctx gmi dims tpl none pr proj = none)
    ∧ (∀ (enc : Str) (ctx : List (Str × Str)) (gmi : Int → Str) (dims : List (Str × Str))
        (tpl : Str) (pr : Rat) (proj : ProjT) (c : TileCoord),
        (createFromWMTSTemplate enc ctx gmi dims tpl (some c) pr proj).isSome = true)
    ∧ (∀ (o : WMTSSourceOptions) (pr : Rat) (proj : ProjT),
        wmtsTileUrlFunction o none pr proj = none) := by
  refine ⟨?_, ?_, ?_⟩
  · intro enc ctx gmi dims tpl pr proj
    rfl
  · intro enc ctx gmi dims tpl pr proj c
    rfl
  · intro o pr proj
    rcases ho : o.urls with _ | us
    · rcases hu : o.url with _ | u
      · simp [wmtsTileUrlFunction, ho, hu, nullTileUrlFunction]
      · simp [wmtsTileUrlFunction, ho, hu, expandUrl, createFromTileUrlFunctions,
          createFromWMTSTemplate]
    · cases us with
      | nil => simp [wmtsTileUrlFunction, ho, nullTileUrlFunction]
      | cons u1 us2 =>
        cases us2 with
        | nil =>
          simp [wmtsTileUrlFunction, ho, createFromTileUrlFunctions, createFromWMTSTemplate]
        | cons u2 us3 =>
          simp [wmtsTileUrlFunction, ho, createFromTileUrlFunctions]

/-- C10: a WMTS source constructed with neither a url option nor a urls
option gets the null tile-URL function: it yields no URL for any tile
coordinate, pixel ratio and projection. -/
theorem wmts_no_urls_null_function (o : WMTSSourceOptions)
    (hurls : o.urls = none) (hurl : o.url = none) :
    ∀ (tc : Option TileCoord) (pr : Rat) (proj : ProjT),
      wmtsTileUrlFunction o tc pr proj = none := by
  intro tc pr proj
  simp [wmtsTileUrlFunction, hurls, hurl, nullTileUrlFunction]

/-- Witness for the C10 theorem at a concrete source with a present tile
coordinate. -/
theorem wmts_no_urls_null_function_witness :
    wmtsTileUrlFunction oNoUrl (some (3, 4, 5)) 1 (("EPSG:3857").data) = none :=
  wmts_no_urls_null_function oNoUrl rfl rfl (some (3, 4, 5)) 1 (("EPSG:3857").data)

/-- C7: the resolved projection is the configured projection exactly when
the config supplies one that the service resolves and that is either
equivalent to the derived projection or faces no derived projection at
all; in every other case (no config projection, an unresolvable config
projection, or an inequivalent one) the derived projection is
retained. -/
theorem resolveProjection_characterization (svc : ProjService) (code : Option Str)
    (cfgP : Option Str) :
    (∀ ps pc, cfgP = some ps → svc.getProjection ps = some pc →
      resolveProjection svc code cfgP =
        if (derivedProjection svc code).all (fun d => svc.equivalent pc d) then some pc
        else derivedProjection svc code)
    ∧ (cfgP = none → resolveProjection svc code cfgP = derivedProjection svc code)
    ∧ (∀ ps, cfgP = some ps → svc.getProjection ps = none →
        resolveProjection svc code cfgP = derivedProjection svc code) := by
  refine ⟨?_, ?_, ?_⟩
  · intro ps pc hps hpc
    subst hps
    simp only [resolveProjection, hpc]
    cases hd : derivedProjection svc code with
    | none => simp
    | some d =>
      by_cases he : svc.equivalent pc d = true
      · simp [he]
      · simp only [Bool.not_eq_true] at he
        simp [he]
  · intro h
    subst h
    rfl
  · intro ps hps hpc
    subst hps
    simp [resolveProjection, hpc]

/-- Witness for the C7 theorem: a config projection the service resolves
and finds equivalent to the derived one is adopted. -/
theorem resolveProjection_witness :
    resolveProjection svcW (some epsg4326Str) (some epsg4326Str) =
      if (derivedProjection svcW (some epsg4326Str)).all
          (fun d => svcW.equivalent epsg4326Str d) then some epsg4326Str
      else derivedProjection svcW (some epsg4326Str) :=
  (resolveProjection_characterization svcW (some epsg4326Str) (some epsg4326Str)).1
    epsg4326Str epsg4326Str rfl (by decide)

/-- C8: when the looked-up layer declares no WGS84 bounding box the
wrap-around flag is absent; when it declares one and EPSG:4326 resolves
with its full extent, any successful resolution carries wrap-around true
exactly when the box's horizontal bounds coincide with that extent's
horizontal bounds. -/
theorem resolveExtentWrap_characterization (svc : ProjService) (bbox : Option Extent)
    (proj : Option ProjT) :
    (bbox = none → resolveExtentWrap svc bbox proj = .ok (none, none))
    ∧ (∀ bb p4326 we r, bbox = some bb →
        svc.getProjection epsg4326Str = some p4326 →
        svc.getExtent p4326 = some we →
        resolveExtentWrap svc bbox proj = .ok r →
        r.2 = some ((bb.minX == we.minX) && (bb.maxX == we.maxX))) := by
  refine ⟨?_, ?_⟩
  · intro h
    subst h
    rfl
  · intro bb p4326 we r hb h4326 hext hres
    subst hb
    simp only [resolveExtentWrap, h4326, hext] at hres
    cases proj with
    | none => exact Except.noConfusion hres
    | some p =>
      dsimp only at hres
      cases hpe : svc.getExtent p with
      | none =>
        rw [hpe] at hres
        dsimp only at hres
        injection hres with h
        subst h
        rfl
      | some pe =>
        rw [hpe] at hres
        dsimp only at hres
        by_cases hc : containsExtent pe (svc.transformExtent bb p) = true
        · rw [if_pos hc] at hres
          injection hres with h
          subst h
          rfl
        · rw [if_neg hc] at hres
          injection hres with h
          subst h
          rfl

/-- Witness for the C8 theorem: a bounding box whose horizontal bounds
equal the full EPSG:4326 extent resolves with wrap-around true. -/
theorem resolveExtentWrap_witness :
    ((some (⟨-180, -90, 180, 90⟩ : Extent), (some true : Option Bool)).2 =
      some ((((⟨-180, -90, 180, 90⟩ : Extent).minX == (⟨-180, -90, 180, 90⟩ : Extent).minX)) &&
        (((⟨-180, -90, 180, 90⟩ : Extent).maxX == (⟨-180, -90, 180, 90⟩ : Extent).maxX)))) :=
  (resolveExtentWrap_characterization svcW (some ⟨-180, -90, 180, 90⟩)
      (some epsg4326Str)).2
    ⟨-180, -90, 180, 90⟩ epsg4326Str ⟨-180, -90, 180, 90⟩
    (some ⟨-180, -90, 180, 90⟩, some true) rfl (by decide) (by decide) (by decide)

/-- C6 (amended): the resolver yields the defined absence exactly for a
failed layer lookup; with the layer found it never yields that absence,
producing either a configuration or, on a malformed document, an
error. -/
theorem optionsFromCapabilities_layer_lookup (svc : ProjService) (caps : CapsDoc)
    (config : WMTSConfig) :
    (findOl (fun elt => elt.Identifier == config.layer) caps.Contents.Layer = none →
      optionsFromCapabilities svc caps config = .ok none)
    ∧ (∀ l, findOl (fun elt => elt.Identifier == config.layer) caps.Contents.Layer = some l →
      optionsFromCapabilities svc caps config ≠ .ok none) := by
  constructor
  · intro h
    simp [optionsFromCapabilities, h]
  · intro l h
    simp only [optionsFromCapabilities, h]
    cases hr : resolveForLayer svc caps config l with
    | error e => simp [Except.map]
    | ok cfg => simp [Except.map]

/-- Witness for the C6 theorem: looking up a layer absent from the
document yields the defined absence. -/
theorem optionsFromCapabilities_layer_lookup_witness :
    optionsFromCapabilities svcNone capsMalformed cfgLayerMissing = .ok none :=
  (optionsFromCapabilities_layer_lookup svcNone capsMalformed cfgLayerMissing).1 (by decide)

/-- C6 counterexample: the layer of the malformed document is found, yet
the resolver raises an error (the missing matrix-set dereference) rather
than returning a fully populated configuration. -/
theorem optionsFromCapabilities_malformed_cex :
    (findOl (fun elt => elt.Identifier == cfgLayerL.layer) capsMalformed.Contents.Layer).isSome = true
    ∧ optionsFromCapabilities svcNone capsMalformed cfgLayerL = .error errNoMatrixSet := by
  exact ⟨by decide, by decide⟩

/-- C2 (amended): with KVP supplied as config.requestEncoding and a
well-formed binding list, the binding scan keeps the KVP encoding and
collects exactly the constrained bindings allowing KVP plus every
unconstrained binding with a nonempty href; when that collection is
nonempty the negotiation returns it with the KVP encoding unchanged.  (A
supplied non-KVP encoding is not honored this way: the scan stops at the
first constrained binding, and an unconstrained binding overrides the
encoding to KVP, as the counterexample shows.) -/
theorem negotiateUrls_kvp (caps : CapsDoc) (l : LayerD) (format0 : Option Str)
    (gets : List GetBindingD) (hom : caps.OperationsMetadata = some gets)
    (hwf : BindingsWf gets) :
    scanBindings gets KVPE [] = .ok (KVPE, collectKvpUrls gets)
    ∧ (collectKvpUrls gets ≠ [] →
        negotiateUrls caps l (some KVPE) format0 = .ok (KVPE, collectKvpUrls gets, format0)) := by
  have hscan := scanBindings_kvp gets hwf []
  simp only [List.nil_append] at hscan
  constructor
  · exact hscan
  · intro hne
    simp only [negotiateUrls, hom, Option.getD]
    rw [hscan]
    dsimp only
    rw [if_neg hne]

/-- Witness for the C2 theorem: one unconstrained binding is collected
and the supplied KVP encoding is kept. -/
theorem negotiateUrls_kvp_witness :
    negotiateUrls capsEnc layerEnc (some KVPE) none =
      .ok (KVPE, collectKvpUrls [⟨("http://a/").data, none⟩], none) :=
  (negotiateUrls_kvp capsEnc layerEnc none [⟨("http://a/").data, none⟩] rfl
    (by
      intro g hg cs hc
      simp only [List.mem_singleton] at hg
      subst hg
      exact Option.noConfusion hc)).2 (by decide)

/-- C2 counterexample: with REST supplied as config.requestEncoding and a
single unconstrained GetTile binding, the resolver outputs requestEncoding
KVP, not the supplied value. -/
theorem requestEncoding_override_cex :
    (match optionsFromCapabilities svcNone capsEnc cfgEnc with
      | .ok (some o) => o.requestEncoding
      | _ => []) = KVPE
    ∧ cfgEnc.requestEncoding = some RESTE
    ∧ KVPE ≠ RESTE := by
  exact ⟨by decide, by decide, by decide⟩

/-- C1 (amended): the matrix-set link selection gives a supplied
config.projection exclusive precedence: with more than one link and a
projection present, the first projection-matching link is selected and
config.matrixSet is never consulted; only with no projection present is
the first link whose identifier equals config.matrixSet selected; when
the used criterion matches nothing the first link is the defined
fallback, and with at most one link the first index is taken
directly. -/
theorem selectLinkIdx_characterization (svc : ProjService) (tms : List MatrixSetD)
    (links : List TmsLink) (config : WMTSConfig) :
    (links.length ≤ 1 → selectLinkIdx svc tms links config = .ok 0)
    ∧ (links.length > 1 → config.projection = none →
        ∀ (i : Nat) (lk : TmsLink), links.get? i = some lk →
          (some lk.TileMatrixSet == config.matrixSet) = true →
          (∀ (j : Nat) (y : TmsLink), j < i → links.get? j = some y →
            (some y.TileMatrixSet == config.matrixSet) = false) →
          selectLinkIdx svc tms links config = .ok i)
    ∧ (links.length > 1 → config.projection = none →
        (∀ lk ∈ links, (some lk.TileMatrixSet == config.matrixSet) = false) →
        selectLinkIdx svc tms links config = .ok 0)
    ∧ (∀ cfgProj, links.length > 1 → config.projection = some cfgProj →
        ∀ (i : Nat) (lk : TmsLink), links.get? i = some lk →
          linkMatchesProjection svc tms cfgProj lk = .ok true →
          (∀ (j : Nat) (y : TmsLink), j < i → links.get? j = some y →
            linkMatchesProjection svc tms cfgProj y = .ok false) →
          selectLinkIdx svc tms links config = .ok i)
    ∧ (∀ cfgProj, links.length > 1 → config.projection = some cfgProj →
        (∀ lk ∈ links, linkMatchesProjection svc tms cfgProj lk = .ok false) →
        selectLinkIdx svc tms links config = .ok 0) := by
  refine ⟨?_, ?_, ?_, ?_, ?_⟩
  · intro hlen
    have h1 : ¬ links.length > 1 := by omega
    simp [selectLinkIdx, h1]
  · intro hlen hproj i lk hget hx hprev
    have hidx := findIndexOl_first (fun elt => some elt.TileMatrixSet == config.matrixSet)
      links i lk hget hx hprev
    have hge : ¬ ((i : Int) < 0) := by omega
    simp [selectLinkIdx, hlen, hproj, hidx, hge]
  · intro hlen hproj hall
    have hidx := findIndexOl_all_false (fun elt => some elt.TileMatrixSet == config.matrixSet)
      links hall
    simp [selectLinkIdx, hlen, hproj, hidx]
  · intro cfgProj hlen hproj i lk hget hx hprev
    have hidx := findIndexE_first (linkMatchesProjection svc tms cfgProj)
      links i lk hget hx hprev 0
    simp only [Nat.cast_zero, zero_add] at hidx
    have hge : ¬ ((i : Int) < 0) := by omega
    simp [selectLinkIdx, hlen, hproj, hidx, hge]
  · intro cfgProj hlen hproj hall
    have hidx := findIndexE_all_false (linkMatchesProjection svc tms cfgProj) links hall 0
    simp [selectLinkIdx, hlen, hproj, hidx]

/-- Witness for the C1 theorem: with a projection supplied and the first
link matching it, index zero is selected. -/
theorem selectLinkIdx_characterization_witness :
    selectLinkIdx svcNone [⟨("A").data, some (("P").data)⟩, ⟨("B").data, some (("Q").data)⟩]
      [⟨("A").data, none⟩, ⟨("B").data, none⟩] cfgLinkSel = .ok 0 :=
  (selectLinkIdx_characterization svcNone
      [⟨("A").data, some (("P").data)⟩, ⟨("B").data, some (("Q").data)⟩]
      [⟨("A").data, none⟩, ⟨("B").data, none⟩] cfgLinkSel).2.2.2.1
    (("P").data) (by decide) (by decide) 0 ⟨("A").data, none⟩ (by decide) (by decide)
    (fun j y hj hg => absurd hj (by omega))

/-- C1 counterexample: with both a matrixSet naming the second link and a
projection matching the first link supplied, the resolver selects the
first link, not the matrixSet-named one. -/
theorem matrixSet_preference_cex :
    (match optionsFromCapabilities svcNone capsLinkSel cfgLinkSel with
      | .ok (some o) => o.matrixSet
      | _ => []) = ("A").data
    ∧ cfgLinkSel.matrixSet = some (("B").data)
    ∧ ("A").data ≠ ("B").data := by
  exact ⟨by decide, by decide, by decide⟩

theorem replaceTpl_nil (f : Str → Option Str) : replaceTpl f [] = [] := by
  simp [replaceTpl]

/-- C4 (amended): in the REST compile-time pass a placeholder whose
lower-cased name matches no static-context key stays verbatim; in the
call-time pass a placeholder whose name matches no dynamic-context key is
replaced by the string rendering of the JavaScript undefined value, so it
does not stay verbatim in the final URL. -/
theorem rest_placeholder_passes (context localContext : List (Str × Str))
    (pre name post : Str)
    (hpre : '{' ∉ pre) (hname : name ≠ []) (hword : ∀ c ∈ name, isWordChar c = true) :
    (lookupStr (lowerStr name) context = none →
      restCompilePass context (pre ++ '{' :: (name ++ '}' :: post)) =
        pre ++ ('{' :: (name ++ ['}'])) ++ restCompilePass context post)
    ∧ (lookupStr name localContext = none →
      restRuntimePass localContext (pre ++ '{' :: (name ++ '}' :: post)) =
        pre ++ undefinedStr ++ restRuntimePass localContext post) := by
  constructor
  · intro h
    unfold restCompilePass
    rw [replaceTpl_decomp _ _ _ _ hpre hname hword, h]
    rfl
  · intro h
    unfold restRuntimePass
    rw [replaceTpl_decomp _ _ _ _ hpre hname hword, h]
    rfl

/-- Witness for the C4 theorem: a placeholder unknown to both passes is
kept by the compile pass and turned into the undefined rendering by the
call pass. -/
theorem rest_placeholder_passes_witness :
    (restCompilePass [] (("http://h/").data ++ '{' :: ((("Foo").data) ++ '}' :: ([] : Str))) =
      ("http://h/").data ++ ('{' :: ((("Foo").data) ++ ['}'])) ++ restCompilePass [] [])
    ∧ (restRuntimePass [] (("http://h/").data ++ '{' :: ((("Foo").data) ++ '}' :: ([] : Str))) =
      ("http://h/").data ++ undefinedStr ++ restRuntimePass [] []) :=
  ⟨(rest_placeholder_passes [] [] (("http://h/").data) (("Foo").data) []
      (by decide) (by decide) (by decide)).1 rfl,
   (rest_placeholder_passes [] [] (("http://h/").data) (("Foo").data) []
      (by decide) (by decide) (by decide)).2 rfl⟩

/-- C4 counterexample: the compiled REST function of a source whose
template holds the unknown placeholder Foo produces the URL with the
substring undefined in its place, not the placeholder kept verbatim. -/
theorem rest_placeholder_cex :
    wmtsTileUrlFunction oRest (some (0, 0, 0)) 1 (("p").data) =
      some (("http://h/undefined").data)
    ∧ ("http://h/undefined").data ≠ ("http://h/{Foo}").data := by
  constructor
  · have hstart : wmtsTileUrlFunction oRest (some (0, 0, 0)) 1 (("p").data) =
        some (restRuntimePass (tileLocalContext oRest.getMatrixId [] 0 0 0)
          (prepareTemplate RESTE (wmtsContext oRest) (("http://h/{Foo}").data))) := rfl
    rw [hstart]
    have hctx : wmtsContext oRest =
        [(("layer").data, ("L").data), (("style").data, ("S").data),
         (("tilematrixset").data, ("M").data)] := by decide
    have hsplit : (("http://h/{Foo}").data : Str) =
        ("http://h/").data ++ '{' :: ((("Foo").data) ++ '}' :: ([] : Str)) := by decide
    have hcompile : prepareTemplate RESTE (wmtsContext oRest) (("http://h/{Foo}").data) =
        ("http://h/{Foo}").data := by
      unfold prepareTemplate
      rw [if_neg (show ¬ ((RESTE == KVPE) = true) from by decide)]
      rw [hctx, hsplit]
      unfold restCompilePass
      rw [replaceTpl_decomp _ _ _ _ (by decide) (by decide) (by decide)]
      rw [show lookupStr (lowerStr (("Foo").data))
          [(("layer").data, ("L").data), (("style").data, ("S").data),
           (("tilematrixset").data, ("M").data)] = none from by decide]
      rw [replaceTpl_nil]
      decide
    rw [hcompile, hsplit]
    unfold restRuntimePass
    rw [replaceTpl_decomp _ _ _ _ (by decide) (by decide) (by decide)]
    rw [show lookupStr (("Foo").data) (tileLocalContext oRest.getMatrixId [] 0 0 0) = none
      from by decide]
    rw [replaceTpl_nil]
    decide
  · decide

/-- C3: the dynamic context maps TileRow to the protocol row -y - 1 for
every tile coordinate (provided the user dimensions do not shadow the
reserved TileRow key), and the KVP-compiled function's output URL carries
the query parameter TileRow with exactly that value (provided the
template's own query string does not already bind TileRow, in which case
the append step would skip it). -/
theorem tileRow_in_query (ctx : List (Str × Str)) (tpl : Str) (gmi : Int → Str)
    (dims : List (Str × Str)) (z x y : Int) (pr : Rat) (proj : ProjT)
    (hdims : tileRowKey ∉ dims.map Prod.fst)
    (hq : tileRowKey ∉ queryKeys (appendParams tpl ctx)) :
    lookupStr tileRowKey (tileLocalContext gmi dims z x y) = some (intToStr (-y - 1))
    ∧ ∀ u, createFromWMTSTemplate KVPE ctx gmi dims tpl (some (z, x, y)) pr proj = some u →
        (tileRowKey, intToStr (-y - 1)) ∈ queryPairs u := by
  have h1 : lookupStr tileRowKey (tileLocalContext gmi dims z x y) =
      some (intToStr (-y - 1)) := by
    unfold tileLocalContext
    rw [lookupStr_assignList]
    have hrev : lookupStr tileRowKey dims.reverse = none := by
      apply lookupStr_eq_none_of_not_mem
      intro hmem
      apply hdims
      rw [List.map_reverse, List.mem_reverse] at hmem
      exact hmem
    rw [hrev, Option.none_orElse']
    have hm : (tileMatrixKey == tileRowKey) = false := by decide
    have hc : (tileColKey == tileRowKey) = false := by decide
    simp [lookupStr, hm, hc]
  refine ⟨h1, ?_⟩
  intro u hu
  have heval : createFromWMTSTemplate KVPE ctx gmi dims tpl (some (z, x, y)) pr proj =
      some (appendParams (prepareTemplate KVPE ctx tpl)
        (tileLocalContext gmi dims z x y)) := rfl
  rw [heval] at hu
  injection hu with h
  rw [← h]
  have hprep : prepareTemplate KVPE ctx tpl = appendParams tpl ctx := by
    unfold prepareTemplate
    rw [if_pos (show (KVPE == KVPE) = true from by decide)]
  rw [hprep]
  apply mem_queryPairs_appendParams
  · exact mem_of_lookupStr _ _ _ h1
  · exact hq
  · decide
  · decide
  · intro hcm
    exact (intToStr_ne_amp_eq (-y - 1) '&' hcm).1 rfl

/-- Witness for the C3 theorem at a concrete KVP source and tile
coordinate: the output query carries TileRow with value -1 for internal
row 0. -/
theorem tileRow_in_query_witness :
    (tileRowKey, intToStr (-(0 : Int) - 1)) ∈ queryPairs
      (appendParams (prepareTemplate KVPE (wmtsContext oKvp) (("http://h").data))
        (tileLocalContext oKvp.getMatrixId [] 0 0 0)) :=
  (tileRow_in_query (wmtsContext oKvp) (("http://h").data) oKvp.getMatrixId []
      0 0 0 1 (("p").data) (by decide) (by decide)).2
    (appendParams (prepareTemplate KVPE (wmtsContext oKvp) (("http://h").data))
      (tileLocalContext oKvp.getMatrixId [] 0 0 0)) rfl
